import Mathlib

/-!
# Join: the shared data layer (`data.js`)

A shallow embedding of the task, contact and label operations of `data.js`
and the properties they satisfy.

Conventions of the embedding

* A JavaScript array of tasks is a `List Task`; array indices handed to the
  operations are arbitrary integers (`Int`), as in the source, where nothing
  restricts them.
* A thrown exception is `Except.error`; a normal return is `Except.ok` with the
  session state after the call.
* JavaScript numbers are IEEE doubles. The counters of the task model are
  integers, so a number is an `Int` and every arithmetic result is rounded to
  the nearest double by `toDouble` (exact up to `2 ^ 53`).
-/

namespace Join

/-! ## Numbers -/

/-- Round an integer to the nearest integer an IEEE double can hold, ties to
the even significand. Integers of magnitude up to `2 ^ 53` are exact. (The
overflow to `Infinity` beyond `2 ^ 1024` is outside the integers modelled.) -/
def toDouble (x : Int) : Int :=
  let a := x.natAbs
  if a ≤ 2 ^ 53 then x
  else
    let e := Nat.log2 a - 52
    let q := a / 2 ^ e
    let r := a % 2 ^ e
    let h := 2 ^ (e - 1)
    let q1 := if r < h then q else if h < r then q + 1 else if q % 2 = 0 then q else q + 1
    x.sign * ((q1 * 2 ^ e : Nat) : Int)

/-- The largest array length of JavaScript, `2 ^ 32 - 1`; an integer key is an
array index when it is non-negative and below it. -/
def maxArrayLength : Nat := 4294967295

/-- Whether an integer property key is an array index. -/
def isArrayIndex (i : Int) : Bool := decide (0 ≤ i) && decide (i < (maxArrayLength : Int))

/-! ## Data model -/

/-- The `doneSubtask` array of a task. `elems` are the indexed slots, `none`
being an empty slot (it reads as `undefined`); `props` are the own properties
whose key is an integer that is not an array index, which a write such as
`a[-1] = v` creates. -/
structure DoneArray where
  elems : List (Option Bool)
  props : List (Int × Bool)
deriving DecidableEq, Repr

/-- A task of the board. -/
structure Task where
  title : String
  description : String
  dueDate : String
  priority : String
  category : String
  subtasks : List String
  doneSubtask : DoneArray
  numberOfDoneSubtasks : Int
  assignedContacts : List String
deriving DecidableEq, Repr

/-- The record of the current user: the name, the tasks, and whatever other
profile fields the record carries. -/
structure UserRecord where
  name : String
  profile : List (String × String)
  tasks : List Task
deriving DecidableEq, Repr

/-- The exceptions the operations can raise. -/
inductive JSError where
  | typeError
deriving DecidableEq, Repr

/-- The state the operations act on: the stored record of the current user. -/
structure Session where
  currentUser : UserRecord
deriving DecidableEq, Repr

/-- Modelled from the spec: `getUser()` is not part of `data.js`; the spec
gives it as `getUser() -> UserRecord`, the current user's full record. -/
def getUser (s : Session) : UserRecord := s.currentUser

/-- Modelled from the spec: `saveUser(user)` is not part of `data.js`; the spec
gives it as `saveUser(UserRecord) -> void`, overwriting the whole record. -/
def saveUser (user : UserRecord) (_s : Session) : Session := { currentUser := user }

/-! ## Array primitives -/

/-- The read `xs[i]` of an array at an integer key: `none` is `undefined`. -/
def arrayGet {α : Type} (xs : List α) (i : Int) : Option α :=
  if 0 ≤ i then xs.get? i.toNat else none

/-- The call `xs.splice(start, deleteCount)`, returning the array left behind.
A negative `start` counts from the end; both bounds are clamped to the array. -/
def splice {α : Type} (xs : List α) (start deleteCount : Int) : List α :=
  let len : Int := xs.length
  let actualStart : Int := if start < 0 then max (len + start) 0 else min start len
  let actualDeleteCount : Int := min (max deleteCount 0) (len - actualStart)
  xs.take actualStart.toNat ++ xs.drop (actualStart.toNat + actualDeleteCount.toNat)

/-- The read `a[i]` of a `doneSubtask` array: an empty slot, a missing index
and a missing property all read as `undefined` (`none`). -/
def DoneArray.read (a : DoneArray) (i : Int) : Option Bool :=
  if isArrayIndex i then (a.elems.get? i.toNat).join
  else (a.props.find? (fun p => p.1 == i)).map Prod.snd

/-- The assignment `a[i] = v`. An index inside the array overwrites the slot;
an index past the end grows the array, leaving empty slots in between; a key
that is not an array index becomes an own property and leaves the slots as
they are. -/
def DoneArray.write (a : DoneArray) (i : Int) (v : Bool) : DoneArray :=
  if isArrayIndex i then
    let k := i.toNat
    if k < a.elems.length then { a with elems := a.elems.set k (some v) }
    else { a with elems := a.elems ++ List.replicate (k - a.elems.length) none ++ [some v] }
  else { a with props := (i, v) :: a.props.filter (fun p => p.1 != i) }

/-- The number of entries of a `doneSubtask` array that are `true`. -/
def DoneArray.countDone (a : DoneArray) : Nat := a.elems.count (some true)

/-! ## Task operations of `data.js` -/

/-- The function `saveUserTask(task)`: push the task and save the user. -/
def saveUserTask (task : Task) (s : Session) : Except JSError Session :=
  let user := getUser s
  let user := { user with tasks := user.tasks ++ [task] }
  .ok (saveUser user s)

/-- The function `saveUserSubtaskDone(taskIndex, subtaskIndex, state)`.
Reading `doneSubtask` of `user.tasks[taskIndex]` raises a `TypeError` when
that element is `undefined`; otherwise the slot is written, the counter goes
up for `state == true` and down otherwise, and the user is saved. -/
def saveUserSubtaskDone (taskIndex subtaskIndex : Int) (state : Bool) (s : Session) :
    Except JSError Session :=
  let user := getUser s
  match arrayGet user.tasks taskIndex with
  | none => .error .typeError
  | some task =>
    let task := { task with doneSubtask := task.doneSubtask.write subtaskIndex state }
    let task :=
      if state == true then
        { task with numberOfDoneSubtasks := toDouble (task.numberOfDoneSubtasks + 1) }
      else
        { task with numberOfDoneSubtasks := toDouble (task.numberOfDoneSubtasks - 1) }
    let user := { user with tasks := user.tasks.set taskIndex.toNat task }
    .ok (saveUser user s)

/-- The function `deleteUserTask(i)`: `splice(i, 1)` on the tasks, then save. -/
def deleteUserTask (i : Int) (s : Session) : Except JSError Session :=
  let user := getUser s
  let user := { user with tasks := splice user.tasks i 1 }
  .ok (saveUser user s)

/-- The function `loadUserTasks()`: the task cache becomes the user's tasks. -/
def loadUserTasks (s : Session) : List Task := (getUser s).tasks

/-- Every task's counter equals the number of `true` entries of its array. -/
def counterInvariant (u : UserRecord) : Prop :=
  ∀ t ∈ u.tasks, t.numberOfDoneSubtasks = (t.doneSubtask.countDone : Int)

/-- The arrays of a task respect the array length limit of JavaScript. -/
def Task.arraysOk (t : Task) : Prop :=
  t.subtasks.length ≤ maxArrayLength ∧ t.doneSubtask.elems.length ≤ maxArrayLength

/-! ## Remote store and contacts -/

/-- The constant `STORAGE_URL`. -/
def STORAGE_URL : String :=
  "https://join-projekt-33778-default-rtdb.europe-west1.firebasedatabase.app/"

/-- A contact of the shared contact list. -/
structure Contact where
  name : String
  email : String
  phone : String
  color : String
deriving DecidableEq, Repr

/-- A JSON document of the store: the contact list or the task list. Encoding
with `JSON.stringify` and decoding with `response.json()` give the document
back, so a document stands for its JSON text. -/
inductive Document where
  | contacts (cs : List Contact)
  | tasks (ts : List Task)
deriving DecidableEq, Repr

/-- The remote store: the document held at each request URL. A URL without a
document is absent from the list. -/
abbrev RemoteStore := List (String × Document)

/-- A `GET` of a URL: the document last stored at exactly that URL. -/
def RemoteStore.fetchGet (store : RemoteStore) (url : String) : Option Document :=
  (store.find? (fun e => e.1 == url)).map Prod.snd

/-- A successful `PUT` to a URL: the document at exactly that URL is replaced. -/
def RemoteStore.fetchPut (store : RemoteStore) (url : String) (doc : Document) : RemoteStore :=
  (url, doc) :: store.filter (fun e => e.1 != url)

/-- The URL `putData` and `loadData` build for a path:
`STORAGE_URL + path + ".json"`. -/
def requestUrl (path : String) : String := STORAGE_URL ++ path ++ ".json"

/-- The function `putData(path, data)` when the store accepts the request: a
`PUT` of the document to `STORAGE_URL + path + ".json"`. -/
def putData (path : String) (data : Document) (store : RemoteStore) : RemoteStore :=
  store.fetchPut (requestUrl path) data

/-- The function `loadData(path)`: a `GET` of `STORAGE_URL + path + ".json"`;
`none` is the `null` the store answers for a URL without a document. -/
def loadData (path : String) (store : RemoteStore) : Option Document :=
  store.fetchGet (requestUrl path)

/-- The function `saveData(name, data)`: `putData(name, data)`. -/
def saveData (name : String) (data : Document) (store : RemoteStore) : RemoteStore :=
  putData name data store

/-- The function `loadContacts()`: `loadData("/contacts")`. -/
def loadContacts (store : RemoteStore) : Option Document := loadData "/contacts" store

/-- The function `saveContacts()`: `saveData("contacts", contactData)`. -/
def saveContacts (contactData : List Contact) (store : RemoteStore) : RemoteStore :=
  saveData "contacts" (.contacts contactData) store

/-- The function `loadTasks()`: `loadData("/tasks")`. -/
def loadTasks (store : RemoteStore) : Option Document := loadData "/tasks" store

/-- The function `saveTasks()`: `saveData("tasks", tasks)`. -/
def saveTasks (tasks : List Task) (store : RemoteStore) : RemoteStore :=
  saveData "tasks" (.tasks tasks) store

/-! ## Initials -/

/-- A JavaScript string: its UTF-16 code units. -/
abbrev JSString := List Nat

/-- The code units of a text. -/
def utf16 (s : String) : JSString :=
  s.toList.flatMap fun c =>
    if c.toNat < 65536 then [c.toNat]
    else [55296 + (c.toNat - 65536) / 1024, 56320 + (c.toNat - 65536) % 1024]

/-- The code unit of the space character. -/
def space : Nat := 32

/-- The call `s.split(" ")`: the pieces between single spaces; the empty
string gives one empty piece. -/
def split : JSString → List JSString
  | [] => [[]]
  | c :: cs =>
    if c = space then [] :: split cs
    else
      match split cs with
      | [] => [[c]]
      | w :: ws => (c :: w) :: ws

/-- The call `word.charAt(0)`: the first code unit, or the empty string. -/
def charAt0 (word : JSString) : JSString := word.take 1

/-- The loop of `getInitials`: a word adds its first code unit while fewer than
two have been collected. -/
def collectInitials (words : List JSString) : JSString :=
  words.foldl (fun initials word =>
    if initials.length < 2 then initials ++ charAt0 word else initials) []

/-- The function `getInitials(inputString)`. The built-in
`String.prototype.toUpperCase` is the parameter `toUpperCase`. -/
def getInitials (toUpperCase : JSString → JSString) (inputString : JSString) : JSString :=
  let words := split inputString
  let initials := collectInitials words
  toUpperCase initials

/-- The upper-case mapping of Unicode for one code unit of Basic Latin and
Latin-1 Supplement (U+0000 to U+00FF): `a`-`z` and `à`-`þ` (without `÷`) move
down by 32, `µ` maps to U+039C, `ÿ` to U+0178 and `ß` to the two letters `SS`.
A code unit beyond U+00FF is returned as it is, which is not Unicode's mapping:
the table is only meant for text of that range. -/
def upperLatin1 (c : Nat) : List Nat :=
  if 97 ≤ c ∧ c ≤ 122 then [c - 32]
  else if c = 181 then [924]
  else if c = 223 then [83, 83]
  else if 224 ≤ c ∧ c ≤ 254 ∧ c ≠ 247 then [c - 32]
  else if c = 255 then [376]
  else [c]

/-- The built-in `toUpperCase` on text of Basic Latin and Latin-1 Supplement. -/
def toUpperCaseLatin1 (s : JSString) : JSString := s.flatMap upperLatin1

/-! ## Colours -/

/-- The constant `colorPool`. -/
def colorPool : List String := [
  "#FF7A00", "#FF5EB3", "#6E52FF", "#9327FF", "#00BEE8",
  "#1FD7C1", "#FF745E", "#FFA35E", "#FC71FF", "#FFC701",
  "#0038FF", "#C3FF2B", "#FFE62B", "#FF4646", "#FFBB2B"
]

/-- Whether a character is a hexadecimal digit. -/
def isHexDigit (c : Char) : Bool :=
  ('0' ≤ c && c ≤ '9') || ('a' ≤ c && c ≤ 'f') || ('A' ≤ c && c ≤ 'F')

/-- Whether a string is `#` followed by exactly six hexadecimal digits. -/
def isHexColor (s : String) : Bool :=
  match s.toList with
  | '#' :: ds => ds.length == 6 && ds.all isHexDigit
  | _ => false

/-- Modelled from the spec: the colour assigner is not part of `data.js`, which
only declares `colorPool`. The spec asks for a palette entry that keeps two
contacts apart whenever the palette has unused entries, that is stable for a
contact on repeated lookups, and that is a deterministic palette entry once
the palette is exhausted. So: a contact already in the table keeps its colour;
a new contact gets the first palette entry no contact has yet; once every
entry is taken the policy `reuse` picks the position of the palette entry. -/
def assignColor (reuse : List (String × String) → String → Nat)
    (table : List (String × String)) (contact : String) : String :=
  match table.lookup contact with
  | some color => color
  | none =>
    match colorPool.find? (fun color => !(table.map Prod.snd).contains color) with
    | some color => color
    | none => colorPool.get ⟨reuse table contact % colorPool.length, Nat.mod_lt _ (by decide)⟩

/-- Modelled from the spec: the assignment for contacts arriving in sequence,
starting from a table of contacts and their colours; each contact is entered
in the table with the colour `assignColor` gives it. -/
def assignColorsFrom (reuse : List (String × String) → String → Nat)
    (table : List (String × String)) (contacts : List String) : List (String × String) :=
  contacts.foldl (fun table contact => table ++ [(contact, assignColor reuse table contact)]) table

/-- Modelled from the spec: the assignment for a sequence of contacts,
starting from the empty table. -/
def assignColors (reuse : List (String × String) → String → Nat)
    (contacts : List String) : List (String × String) :=
  assignColorsFrom reuse [] contacts

/-- Whether the colour at position `i` of a sequence of colours was already
given at an earlier position. -/
def alreadyGiven (colors : List String) (i : Nat) : Bool :=
  match colors.get? i with
  | some color => (colors.take i).contains color
  | none => false

/-! ## Sample values -/

/-- A task with the given title, `doneSubtask` slots and counter, one subtask
name for each slot. -/
def sampleTask (title : String) (done : List (Option Bool)) (counter : Int) : Task :=
  { title := title, description := "", dueDate := "2024-05-01", priority := "medium",
    category := "User Story", subtasks := done.map (fun _ => "step"),
    doneSubtask := { elems := done, props := [] }, numberOfDoneSubtasks := counter,
    assignedContacts := [] }

/-- A session whose user holds the given tasks. -/
def sampleSession (tasks : List Task) : Session :=
  { currentUser := { name := "Max Mustermann", profile := [("email", "max@join.de")],
                     tasks := tasks } }

/-! # Properties

## Lemmas on the array primitives -/

theorem splice_one_of_valid {α : Type} (xs : List α) (i : Int) (h0 : 0 ≤ i)
    (h1 : i < (xs.length : Int)) : splice xs i 1 = xs.eraseIdx i.toNat := by
  obtain ⟨k, rfl⟩ := Int.eq_ofNat_of_zero_le h0
  have hk : k < xs.length := by exact_mod_cast h1
  have e1 : ¬ ((k : Int) < 0) := by omega
  have e2 : min (k : Int) (xs.length : Int) = k := by omega
  have e3 : min (max (1 : Int) 0) ((xs.length : Int) - k) = 1 := by omega
  simp only [splice, e1, if_false, e2, e3, Int.toNat_ofNat, Int.toNat_one]
  rw [List.eraseIdx_eq_take_drop_succ]

theorem splice_one_of_length_le {α : Type} (xs : List α) (i : Int)
    (h : (xs.length : Int) ≤ i) : splice xs i 1 = xs := by
  have e1 : ¬ (i < 0) := by omega
  have e2 : min i (xs.length : Int) = xs.length := by omega
  have e3 : min (max (1 : Int) 0) ((xs.length : Int) - (xs.length : Int)) = 0 := by omega
  simp only [splice, e1, if_false, e2, e3, Int.toNat_ofNat, Int.toNat_zero, Nat.add_zero,
    List.take_append_drop]

theorem splice_one_of_neg {α : Type} (xs : List α) (i : Int) (h : i < 0) :
    splice xs i 1 = xs.eraseIdx (max ((xs.length : Int) + i) 0).toNat := by
  by_cases hx : xs.length = 0
  · have : xs = [] := List.length_eq_zero.mp hx
    subst this
    simp [splice]
  · have hlt : (max ((xs.length : Int) + i) 0) < xs.length := by omega
    have e3 : min (max (1 : Int) 0) ((xs.length : Int) - max ((xs.length : Int) + i) 0) = 1 := by
      omega
    simp only [splice, h, if_true, e3, Int.toNat_one]
    rw [List.eraseIdx_eq_take_drop_succ]

/-! ## Tasks: append, delete, and the add/delete round trip -/

/-- C3. For every user record with tasks `ts` and every index `i` with
`0 ≤ i < len(ts)`, `deleteUserTask(i)` returns normally and saves a record
whose task sequence has length `len(ts) - 1`, holds `ts[k]` at every position
`k < i` and `ts[k + 1]` at every position `k ≥ i`; the other fields of the
record are untouched. -/
theorem deleteUserTask_postcondition (s : Session) (i : Int) (h0 : 0 ≤ i)
    (h1 : i < ((getUser s).tasks.length : Int)) :
    ∃ s1, deleteUserTask i s = .ok s1 ∧
      (getUser s1).tasks.length = (getUser s).tasks.length - 1 ∧
      (∀ k : Nat, (k : Int) < i → (getUser s1).tasks[k]? = (getUser s).tasks[k]?) ∧
      (∀ k : Nat, i ≤ (k : Int) → (getUser s1).tasks[k]? = (getUser s).tasks[k + 1]?) ∧
      (getUser s1).name = (getUser s).name ∧ (getUser s1).profile = (getUser s).profile := by
  obtain ⟨n, rfl⟩ := Int.eq_ofNat_of_zero_le h0
  simp only [getUser] at h1
  have hn : n < s.currentUser.tasks.length := by exact_mod_cast h1
  refine ⟨_, rfl, ?_, ?_, ?_, rfl, rfl⟩
  · simp only [getUser, saveUser]
    rw [splice_one_of_valid _ _ h0 h1, Int.toNat_ofNat, List.length_eraseIdx, if_pos hn]
  · intro k hk
    have hk1 : k < n := by exact_mod_cast hk
    simp only [getUser, saveUser]
    rw [splice_one_of_valid _ _ h0 h1, Int.toNat_ofNat, List.getElem?_eraseIdx, if_pos hk1]
  · intro k hk
    have hk1 : ¬ k < n := by
      have : n ≤ k := by exact_mod_cast hk
      omega
    simp only [getUser, saveUser]
    rw [splice_one_of_valid _ _ h0 h1, Int.toNat_ofNat, List.getElem?_eraseIdx, if_neg hk1]

/-- Witness of C3: deleting index 1 of a record with the tasks `a`, `b`, `c`
leaves `a`, `c`. -/
theorem deleteUserTask_postcondition_witness :
    ∃ s1, deleteUserTask 1 (sampleSession [sampleTask "a" [] 0, sampleTask "b" [] 0,
        sampleTask "c" [] 0]) = .ok s1 ∧
      (getUser s1).tasks.length = 3 - 1 ∧
      (getUser s1).tasks[0]? = some (sampleTask "a" [] 0) ∧
      (getUser s1).tasks[1]? = some (sampleTask "c" [] 0) := by
  obtain ⟨s1, h, hlen, hlow, hhigh, -⟩ := deleteUserTask_postcondition
    (sampleSession [sampleTask "a" [] 0, sampleTask "b" [] 0, sampleTask "c" [] 0]) 1
    (by decide) (by decide)
  exact ⟨s1, h, hlen, hlow 0 (by decide), hhigh 1 (by decide)⟩

/-- C4. For every user record with tasks `ts` and every task `t`, whether or
not `t` equals or shares its title with a task of `ts`, `saveUserTask(t)`
returns normally and saves a record whose task sequence is `ts` followed by
`t`: its length is `len(ts) + 1`, its first `len(ts)` elements are those of
`ts` in order, its last element is `t`; the other fields are untouched. -/
theorem saveUserTask_appends (s : Session) (t : Task) :
    ∃ s1, saveUserTask t s = .ok s1 ∧
      (getUser s1).tasks = (getUser s).tasks ++ [t] ∧
      (getUser s1).tasks.length = (getUser s).tasks.length + 1 ∧
      (∀ k : Nat, k < (getUser s).tasks.length →
        (getUser s1).tasks[k]? = (getUser s).tasks[k]?) ∧
      (getUser s1).tasks[(getUser s).tasks.length]? = some t ∧
      (getUser s1).name = (getUser s).name ∧ (getUser s1).profile = (getUser s).profile := by
  refine ⟨_, rfl, rfl, ?_, ?_, ?_, rfl, rfl⟩
  · simp [getUser, saveUser]
  · intro k hk
    simp only [getUser, saveUser] at hk ⊢
    rw [List.getElem?_append_left hk]
  · simp [getUser, saveUser]

/-- C5. For every user record with tasks `ts` and every task `t`,
`saveUserTask(t)` followed by `deleteUserTask(n - 1)`, with `n` the length of
the task sequence after the add, returns normally and leaves the record as it
was: the same tasks in the same order, hence the same length. -/
theorem saveUserTask_deleteUserTask_roundtrip (s : Session) (t : Task) :
    (saveUserTask t s >>= fun s1 =>
      deleteUserTask (((getUser s1).tasks.length : Int) - 1) s1) = .ok s := by
  have h0 : (0 : Int) ≤ ((s.currentUser.tasks ++ [t]).length : Int) - 1 := by
    simp
  have h1 : ((s.currentUser.tasks ++ [t]).length : Int) - 1
      < ((s.currentUser.tasks ++ [t]).length : Int) := by omega
  have hn : (((s.currentUser.tasks ++ [t]).length : Int) - 1).toNat
      = s.currentUser.tasks.length := by
    simp
  show Except.ok _ = Except.ok s
  simp only [getUser, saveUser]
  rw [splice_one_of_valid _ _ h0 h1, hn, List.eraseIdx_append_of_length_le (le_refl _)]
  simp

/-! ## Lemmas on the subtask write -/

theorem toDouble_of_natAbs_le (x : Int) (h : x.natAbs ≤ 2 ^ 53) : toDouble x = x := by
  simp only [toDouble, h, if_true]

theorem arrayGet_eq_some_iff {α : Type} (xs : List α) (i : Int) (x : α) :
    arrayGet xs i = some x ↔ 0 ≤ i ∧ xs[i.toNat]? = some x := by
  unfold arrayGet
  by_cases h : 0 ≤ i
  · simp [h]
  · simp [h]

theorem arrayGet_eq_none_iff {α : Type} (xs : List α) (i : Int) :
    arrayGet xs i = none ↔ ¬ (0 ≤ i ∧ i < (xs.length : Int)) := by
  unfold arrayGet
  by_cases h : 0 ≤ i
  · simp only [h, if_true, true_and, List.get?_eq_getElem?, List.getElem?_eq_none_iff]
    omega
  · simp [h]

theorem count_set_some (l : List (Option Bool)) (k : Nat) (h : k < l.length) (v : Bool) :
    (l.set k (some v)).count (some true) + (if l[k]? = some (some true) then 1 else 0)
      = l.count (some true) + (if v = true then 1 else 0) := by
  induction l generalizing k with
  | nil => simp at h
  | cons x xs ih =>
    cases k with
    | zero =>
      simp only [List.set_cons_zero, List.count_cons, List.getElem?_cons_zero, Option.some.injEq]
      cases v <;> rcases x with _ | _ | _ <;> simp
    | succ k =>
      have hk : k < xs.length := by simpa using h
      have := ih k hk
      simp only [List.set_cons_succ, List.count_cons, List.getElem?_cons_succ]
      omega

theorem DoneArray.countDone_write (a : DoneArray) (i : Int) (v : Bool)
    (hi : isArrayIndex i = true) :
    (a.write i v).countDone + (if a.read i = some true then 1 else 0)
      = a.countDone + (if v = true then 1 else 0) := by
  unfold DoneArray.write DoneArray.read DoneArray.countDone
  simp only [hi, if_true]
  by_cases hk : i.toNat < a.elems.length
  · simp only [hk, if_true]
    have := count_set_some a.elems i.toNat hk v
    have e : ((a.elems.get? i.toNat).join = some true) ↔ a.elems[i.toNat]? = some (some true) := by
      rw [List.get?_eq_getElem?]
      rcases a.elems[i.toNat]? with _ | _ | _ <;> simp
    simp only [e]
    exact this
  · simp only [hk, if_false]
    have e : a.elems.get? i.toNat = none := by
      rw [List.get?_eq_getElem?, List.getElem?_eq_none_iff]; omega
    simp only [e, Option.join, List.count_append, List.count_replicate]
    cases v <;> simp

theorem DoneArray.read_write (a : DoneArray) (i : Int) (v : Bool) :
    (a.write i v).read i = some v := by
  unfold DoneArray.write DoneArray.read
  by_cases hi : isArrayIndex i = true
  · simp only [hi, if_true]
    by_cases hk : i.toNat < a.elems.length
    · simp [hk]
    · simp only [hk, if_false, List.get?_eq_getElem?]
      rw [List.getElem?_append_right (by simp; omega)]
      have e : i.toNat - (a.elems.length + (i.toNat - a.elems.length)) = 0 := by omega
      simp [e]
  · simp [hi]

theorem saveUserSubtaskDone_of_task (s : Session) (taskIndex subtaskIndex : Int) (state : Bool)
    (task : Task) (h : arrayGet (getUser s).tasks taskIndex = some task) :
    saveUserSubtaskDone taskIndex subtaskIndex state s
      = .ok { currentUser := { (getUser s) with
          tasks := (getUser s).tasks.set taskIndex.toNat
            { task with
              doneSubtask := task.doneSubtask.write subtaskIndex state
              numberOfDoneSubtasks :=
                toDouble (task.numberOfDoneSubtasks + (if state = true then 1 else -1)) } } } := by
  unfold saveUserSubtaskDone
  simp only [h]
  cases state <;> simp [saveUser, Int.sub_eq_add_neg]

theorem saveUserSubtaskDone_of_invalid (s : Session) (taskIndex subtaskIndex : Int)
    (state : Bool) (h : ¬ (0 ≤ taskIndex ∧ taskIndex < ((getUser s).tasks.length : Int))) :
    saveUserSubtaskDone taskIndex subtaskIndex state s = .error .typeError := by
  unfold saveUserSubtaskDone
  simp only [(arrayGet_eq_none_iff _ _).mpr h]

theorem isArrayIndex_of_lt {n : Nat} (i : Int) (h0 : 0 ≤ i) (h1 : i < (n : Int))
    (hn : n ≤ maxArrayLength) : isArrayIndex i = true := by
  have : i < (maxArrayLength : Int) := by
    have : (n : Int) ≤ (maxArrayLength : Int) := by exact_mod_cast hn
    omega
  simp [isArrayIndex, h0, this]

theorem DoneArray.countDone_le (a : DoneArray) : a.countDone ≤ a.elems.length :=
  List.count_le_length _ _

/-! ## Subtask toggling: the counter -/

/-- C1, counterexample. A record with one task whose single subtask is done
and whose counter is 1 satisfies the invariant, both indices are valid, and
`saveUserSubtaskDone(0, 0, true)` saves a record whose counter is 2 while one
entry of `doneSubtask` is `true`. -/
theorem counter_invariant_counterexample :
    counterInvariant (getUser (sampleSession [sampleTask "a" [some true] 1])) ∧
    ∃ s1, saveUserSubtaskDone 0 0 true (sampleSession [sampleTask "a" [some true] 1]) = .ok s1 ∧
      (getUser s1).tasks.map Task.numberOfDoneSubtasks = [2] ∧
      (getUser s1).tasks.map (fun t => t.doneSubtask.countDone) = [1] ∧
      ¬ counterInvariant (getUser s1) := by
  refine ⟨?_, _, rfl, by decide, by decide, ?_⟩
  · intro t ht
    simp only [getUser, sampleSession, List.mem_singleton] at ht
    subst ht
    decide
  · intro h
    have := h (sampleTask "a" [some true] 2) (by simp [getUser, saveUser, sampleSession, sampleTask, DoneArray.write, isArrayIndex, maxArrayLength, toDouble])
    revert this
    decide

theorem arrayGet_set_self {α : Type} (xs : List α) (i : Int) (x y : α)
    (h : arrayGet xs i = some x) : arrayGet (xs.set i.toNat y) i = some y := by
  rw [arrayGet_eq_some_iff] at h ⊢
  refine ⟨h.1, ?_⟩
  have hlt : i.toNat < xs.length := by
    by_contra hc
    rw [List.getElem?_eq_none (by omega)] at h
    exact absurd h.2 (by simp)
  rw [List.getElem?_set_self]
  simp [hlt]

theorem updated_counter_iff (task : Task) (subtaskIndex : Int) (state : Bool)
    (hc : task.numberOfDoneSubtasks = (task.doneSubtask.countDone : Int))
    (hlen : task.arraysOk)
    (h0 : 0 ≤ subtaskIndex) (h1 : subtaskIndex < (task.subtasks.length : Int)) :
    toDouble (task.numberOfDoneSubtasks + (if state = true then 1 else -1))
        = ((task.doneSubtask.write subtaskIndex state).countDone : Int) ↔
      (task.doneSubtask.read subtaskIndex = some true ↔ state = false) := by
  have hidx : isArrayIndex subtaskIndex = true := isArrayIndex_of_lt subtaskIndex h0 h1 hlen.1
  have hw := DoneArray.countDone_write task.doneSubtask subtaskIndex state hidx
  have hle := DoneArray.countDone_le task.doneSubtask
  have hmax := hlen.2
  simp only [maxArrayLength] at hmax
  rw [toDouble_of_natAbs_le _ (by split <;> omega), hc]
  cases state with
  | true =>
    by_cases hold : task.doneSubtask.read subtaskIndex = some true
    · simp only [hold, if_true] at hw ⊢
      constructor
      · intro h
        omega
      · intro h
        exact absurd (h.mp trivial) (by decide)
    · simp only [hold, if_false, if_true, Nat.add_zero] at hw ⊢
      constructor
      · intro _
        exact ⟨fun h => absurd h (by simp), fun h => absurd h (by decide)⟩
      · intro _
        omega
  | false =>
    by_cases hold : task.doneSubtask.read subtaskIndex = some true
    · simp only [hold, if_true, Bool.false_eq_true, if_false, Nat.add_zero] at hw ⊢
      constructor
      · intro _
        trivial
      · intro _
        omega
    · simp only [hold, if_false, Bool.false_eq_true, Nat.add_zero] at hw ⊢
      constructor
      · intro h
        omega
      · intro h
        exact (h.mpr trivial).elim

/-- C1, amended. For every user record in which every task satisfies
`numberOfDoneSubtasks == (number of true entries of doneSubtask)`, every valid
`taskIndex` whose task has arrays within the array length limit, every valid
`subtaskIndex` and every boolean `state`,
`saveUserSubtaskDone(taskIndex, subtaskIndex, state)` returns normally, and the
record it saves again satisfies the equation for every task exactly when the
call changes the entry, that is when `doneSubtask[subtaskIndex]` is `true`
before the call exactly when `state` is `false`. A call whose `state` is what
the entry already holds (`true` on `true`, `false` on an entry that is not
`true`) saves a record that breaks the equation. -/
theorem saveUserSubtaskDone_preserves_counter (s : Session) (taskIndex subtaskIndex : Int)
    (state : Bool) (task : Task)
    (hinv : counterInvariant (getUser s))
    (htask : arrayGet (getUser s).tasks taskIndex = some task)
    (hlen : task.arraysOk)
    (h0 : 0 ≤ subtaskIndex) (h1 : subtaskIndex < (task.subtasks.length : Int)) :
    ∃ s1, saveUserSubtaskDone taskIndex subtaskIndex state s = .ok s1 ∧
      (counterInvariant (getUser s1) ↔
        (task.doneSubtask.read subtaskIndex = some true ↔ state = false)) := by
  have hmemTask : task ∈ (getUser s).tasks := by
    rw [arrayGet_eq_some_iff] at htask
    exact List.getElem?_mem htask.2
  have hc : task.numberOfDoneSubtasks = (task.doneSubtask.countDone : Int) := hinv task hmemTask
  have hiff := updated_counter_iff task subtaskIndex state hc hlen h0 h1
  refine ⟨_, saveUserSubtaskDone_of_task s taskIndex subtaskIndex state task htask, ?_, ?_⟩
  · intro hinv1
    have hget := arrayGet_set_self (getUser s).tasks taskIndex task
      { task with
        doneSubtask := task.doneSubtask.write subtaskIndex state
        numberOfDoneSubtasks :=
          toDouble (task.numberOfDoneSubtasks + (if state = true then 1 else -1)) } htask
    rw [arrayGet_eq_some_iff] at hget
    exact hiff.mp (hinv1 _ (List.getElem?_mem hget.2))
  · intro hchange t ht
    simp only [getUser] at ht
    rcases List.mem_or_eq_of_mem_set ht with hmem | rfl
    · exact hinv t hmem
    · exact hiff.mpr hchange

/-- Witness of C1 (amended): on a task with one done subtask out of two,
marking the open second subtask as done keeps the equation. -/
theorem saveUserSubtaskDone_preserves_counter_witness :
    ∃ s1, saveUserSubtaskDone 0 1 true
        (sampleSession [sampleTask "a" [some true, some false] 1]) = .ok s1 ∧
      counterInvariant (getUser s1) := by
  obtain ⟨s1, h, hiff⟩ := saveUserSubtaskDone_preserves_counter
    (sampleSession [sampleTask "a" [some true, some false] 1]) 0 1 true
    (sampleTask "a" [some true, some false] 1)
    (by
      intro t ht
      simp only [getUser, sampleSession, List.mem_singleton] at ht
      subst ht
      decide)
    (by decide) (by unfold Task.arraysOk; decide) (by decide) (by decide)
  exact ⟨s1, h, hiff.mpr (by decide)⟩

theorem saveUserSubtaskDone_step (s : Session) (taskIndex subtaskIndex : Int) (state : Bool)
    (task : Task) (htask : arrayGet (getUser s).tasks taskIndex = some task) :
    ∃ s1 task1, saveUserSubtaskDone taskIndex subtaskIndex state s = .ok s1 ∧
      arrayGet (getUser s1).tasks taskIndex = some task1 ∧
      task1.doneSubtask = task.doneSubtask.write subtaskIndex state ∧
      task1.numberOfDoneSubtasks
        = toDouble (task.numberOfDoneSubtasks + (if state = true then 1 else -1)) :=
  ⟨_, _, saveUserSubtaskDone_of_task s taskIndex subtaskIndex state task htask,
    arrayGet_set_self _ _ _ _ htask, rfl, rfl⟩

/-- C2, counterexample. In a record with one task whose single subtask is done
(counter 1), `saveUserSubtaskDone(0, 0, true)` followed by
`saveUserSubtaskDone(0, 0, false)` leaves `doneSubtask[0]` as `false`, not the
`true` it was before the two calls. -/
theorem toggle_roundtrip_counterexample :
    (sampleTask "a" [some true] 1).doneSubtask.read 0 = some true ∧
    ∃ s2, (saveUserSubtaskDone 0 0 true (sampleSession [sampleTask "a" [some true] 1]) >>=
        saveUserSubtaskDone 0 0 false) = .ok s2 ∧
      (getUser s2).tasks.map (fun t => t.doneSubtask.read 0) = [some false] :=
  ⟨by decide, _, rfl, by decide⟩

/-- C2, amended. For every user record, every valid `taskIndex` and every
`subtaskIndex`, when the counter of the task is a safe integer (magnitude below
`2 ^ 53`), `saveUserSubtaskDone(i, j, true)` followed by
`saveUserSubtaskDone(i, j, false)` returns normally, leaves
`tasks[i].doneSubtask[j]` equal to `false` (its value before the two calls only
when that value was `false`) and leaves `tasks[i].numberOfDoneSubtasks` equal to
the value it had before the two calls. -/
theorem saveUserSubtaskDone_true_then_false (s : Session) (taskIndex subtaskIndex : Int)
    (task : Task)
    (htask : arrayGet (getUser s).tasks taskIndex = some task)
    (hsafe : task.numberOfDoneSubtasks.natAbs < 2 ^ 53) :
    ∃ s2 task2,
      (saveUserSubtaskDone taskIndex subtaskIndex true s >>=
        saveUserSubtaskDone taskIndex subtaskIndex false) = .ok s2 ∧
      arrayGet (getUser s2).tasks taskIndex = some task2 ∧
      task2.doneSubtask.read subtaskIndex = some false ∧
      (task2.doneSubtask.read subtaskIndex = task.doneSubtask.read subtaskIndex ↔
        task.doneSubtask.read subtaskIndex = some false) ∧
      task2.numberOfDoneSubtasks = task.numberOfDoneSubtasks := by
  obtain ⟨s1, task1, e1, g1, d1, c1⟩ :=
    saveUserSubtaskDone_step s taskIndex subtaskIndex true task htask
  obtain ⟨s2, task2, e2, g2, d2, c2⟩ :=
    saveUserSubtaskDone_step s1 taskIndex subtaskIndex false task1 g1
  have hr : task2.doneSubtask.read subtaskIndex = some false := by
    rw [d2]
    exact DoneArray.read_write _ _ _
  refine ⟨s2, task2, ?_, g2, hr, ?_, ?_⟩
  · rw [e1]
    exact e2
  · rw [hr]
    exact eq_comm
  · rw [c2, c1]
    simp only [if_true, Bool.false_eq_true, if_false]
    rw [toDouble_of_natAbs_le (task.numberOfDoneSubtasks + 1) (by omega)]
    rw [toDouble_of_natAbs_le _ (by omega)]
    omega

/-- Witness of C2 (amended): the two calls on the open subtask of a task. -/
theorem saveUserSubtaskDone_true_then_false_witness :
    ∃ s2 task2,
      (saveUserSubtaskDone 0 0 true (sampleSession [sampleTask "a" [some false] 0]) >>=
        saveUserSubtaskDone 0 0 false) = .ok s2 ∧
      arrayGet (getUser s2).tasks 0 = some task2 ∧
      task2.doneSubtask.read 0 = some false ∧
      (task2.doneSubtask.read 0 = (sampleTask "a" [some false] 0).doneSubtask.read 0 ↔
        (sampleTask "a" [some false] 0).doneSubtask.read 0 = some false) ∧
      task2.numberOfDoneSubtasks = (sampleTask "a" [some false] 0).numberOfDoneSubtasks :=
  saveUserSubtaskDone_true_then_false (sampleSession [sampleTask "a" [some false] 0]) 0 0
    (sampleTask "a" [some false] 0) (by decide) (by decide)

/-! ## Indices out of range -/

/-- C6, counterexample. On a record with the two tasks `a` and `b`, none of
these calls with an index out of range reports an error:
`deleteUserTask(2)` returns leaving the record as it was,
`deleteUserTask(-1)` returns having removed task `b`, and
`saveUserSubtaskDone(0, 5, false)` on task `a` (one subtask) returns having
saved counter `-1` and a `doneSubtask` of six slots. -/
theorem invalid_index_counterexample :
    deleteUserTask 2 (sampleSession [sampleTask "a" [some false] 0, sampleTask "b" [] 0])
      = .ok (sampleSession [sampleTask "a" [some false] 0, sampleTask "b" [] 0]) ∧
    deleteUserTask (-1) (sampleSession [sampleTask "a" [some false] 0, sampleTask "b" [] 0])
      = .ok (sampleSession [sampleTask "a" [some false] 0]) ∧
    saveUserSubtaskDone 0 5 false
        (sampleSession [sampleTask "a" [some false] 0, sampleTask "b" [] 0])
      = .ok (sampleSession [
          { sampleTask "a" [some false] 0 with
            doneSubtask := ⟨[some false, none, none, none, none, some false], []⟩
            numberOfDoneSubtasks := -1 },
          sampleTask "b" [] 0]) :=
  ⟨rfl, rfl, rfl⟩

/-- C6, amended. `saveUserSubtaskDone` with `taskIndex` outside
`0 ≤ taskIndex < len(tasks)` raises a `TypeError` and saves nothing. The other
calls with an index out of range return normally: `deleteUserTask(i)` with
`i ≥ len(tasks)` saves the record as it was; `deleteUserTask(i)` with `i < 0`
saves the record without the task at position `max(len(tasks) + i, 0)`;
`saveUserSubtaskDone` with a valid `taskIndex` and a `subtaskIndex` outside
`0 ≤ subtaskIndex < len(subtasks)` saves a record in which the assignment
`doneSubtask[subtaskIndex] = state` has been made and in which, when the
counter was a safe integer (magnitude below `2 ^ 53`), the counter has moved
by one (up for `true`, down for `false`). -/
theorem invalid_index_behaviour :
    (∀ (s : Session) (taskIndex subtaskIndex : Int) (state : Bool),
      ¬ (0 ≤ taskIndex ∧ taskIndex < ((getUser s).tasks.length : Int)) →
      saveUserSubtaskDone taskIndex subtaskIndex state s = .error .typeError) ∧
    (∀ (s : Session) (i : Int), ((getUser s).tasks.length : Int) ≤ i →
      deleteUserTask i s = .ok s) ∧
    (∀ (s : Session) (i : Int), i < 0 →
      deleteUserTask i s = .ok { currentUser := { (getUser s) with
        tasks := (getUser s).tasks.eraseIdx
          (max (((getUser s).tasks.length : Int) + i) 0).toNat } }) ∧
    (∀ (s : Session) (taskIndex subtaskIndex : Int) (state : Bool) (task : Task),
      arrayGet (getUser s).tasks taskIndex = some task →
      ¬ (0 ≤ subtaskIndex ∧ subtaskIndex < (task.subtasks.length : Int)) →
      ∃ s1 task1, saveUserSubtaskDone taskIndex subtaskIndex state s = .ok s1 ∧
        arrayGet (getUser s1).tasks taskIndex = some task1 ∧
        task1.doneSubtask = task.doneSubtask.write subtaskIndex state ∧
        (task.numberOfDoneSubtasks.natAbs < 2 ^ 53 →
          task1.numberOfDoneSubtasks
            = task.numberOfDoneSubtasks + (if state = true then 1 else -1))) := by
  refine ⟨saveUserSubtaskDone_of_invalid, ?_, ?_, ?_⟩
  · intro s i h
    show Except.ok _ = Except.ok s
    simp only [getUser, saveUser] at h ⊢
    rw [splice_one_of_length_le _ _ h]
  · intro s i h
    show Except.ok _ = Except.ok _
    simp only [getUser, saveUser]
    rw [splice_one_of_neg _ _ h]
  · intro s taskIndex subtaskIndex state task htask _
    obtain ⟨s1, task1, e1, g1, d1, c1⟩ :=
      saveUserSubtaskDone_step s taskIndex subtaskIndex state task htask
    refine ⟨s1, task1, e1, g1, d1, ?_⟩
    intro hsafe
    rw [c1]
    exact toDouble_of_natAbs_le _ (by split <;> omega)

/-! ## Contacts and the remote store -/

theorem fetchGet_fetchPut_of_ne (store : RemoteStore) (url other : String) (doc : Document)
    (h : url ≠ other) : (store.fetchPut url doc).fetchGet other = store.fetchGet other := by
  unfold RemoteStore.fetchPut RemoteStore.fetchGet
  have h1 : ((url, doc).1 == other) = false := by simpa using h
  rw [List.find?_cons_of_neg _ (by simp [h1]), List.find?_filter]
  congr 2
  funext e
  by_cases he : e.1 = other
  · subst he
    have : e.1 ≠ url := fun hc => h hc.symm
    simp [this]
  · simp [he]

theorem fetchGet_fetchPut_self (store : RemoteStore) (url : String) (doc : Document) :
    (store.fetchPut url doc).fetchGet url = some doc := by
  simp [RemoteStore.fetchPut, RemoteStore.fetchGet]

/-- C7. The URL `saveContacts` writes and the URL `loadContacts` reads are two
URLs: the first ends in `.app/contacts.json`, the second in
`.app//contacts.json`. In a store that keeps one document for each URL, a
`saveContacts()` therefore never changes what `loadContacts()` returns, and
from an empty store `loadContacts()` after `saveContacts()` of one contact
returns no document. A load from the URL that was written would return the
contacts that were saved. -/
theorem saveContacts_loadContacts_urls :
    requestUrl "contacts"
      = "https://join-projekt-33778-default-rtdb.europe-west1.firebasedatabase.app/contacts.json" ∧
    requestUrl "/contacts"
      = "https://join-projekt-33778-default-rtdb.europe-west1.firebasedatabase.app//contacts.json" ∧
    requestUrl "contacts" ≠ requestUrl "/contacts" ∧
    (∀ (contactData : List Contact) (store : RemoteStore),
      loadContacts (saveContacts contactData store) = loadContacts store) ∧
    loadContacts (saveContacts [⟨"Max Mustermann", "max@join.de", "0151", "#FF7A00"⟩] []) = none ∧
    (∀ (contactData : List Contact) (store : RemoteStore),
      loadData "contacts" (saveContacts contactData store) = some (.contacts contactData)) := by
  refine ⟨by decide, by decide, by decide, ?_, by decide, ?_⟩
  · intro contactData store
    exact fetchGet_fetchPut_of_ne store _ _ _ (by decide)
  · intro contactData store
    exact fetchGet_fetchPut_self store _ _

/-! ## The palette -/

/-- C9. `colorPool` is a list of exactly 15 strings, pairwise distinct, each
`#` followed by exactly six hexadecimal digits; so 15 contacts can each be
given a different palette colour (the palette itself is such a choice) and
every list of pairwise different palette colours has at most 15 entries. -/
theorem colorPool_shape :
    colorPool.length = 15 ∧ colorPool.Nodup ∧ (∀ c ∈ colorPool, isHexColor c = true) ∧
    (∃ l : List String, l.length = 15 ∧ l.Nodup ∧ ∀ c ∈ l, c ∈ colorPool) ∧
    (∀ l : List String, l.Nodup → (∀ c ∈ l, c ∈ colorPool) → l.length ≤ 15) := by
  have hnodup : colorPool.Nodup := by decide
  refine ⟨by decide, hnodup, by decide, ⟨colorPool, by decide, hnodup, fun _ h => h⟩, ?_⟩
  intro l hl hsub
  have := (List.subperm_of_subset hl hsub).length_le
  simpa using this

/-! ## Initials -/

theorem split_of_no_space (w : JSString) (h : space ∉ w) : split w = [w] := by
  induction w with
  | nil => rfl
  | cons c cs ih =>
    have hc : c ≠ space := fun e => h (by simp [e])
    have hcs : space ∉ cs := fun e => h (List.mem_cons_of_mem _ e)
    simp only [split, hc, if_false, ih hcs]

theorem split_append_space (w rest : JSString) (h : space ∉ w) :
    split (w ++ space :: rest) = w :: split rest := by
  induction w with
  | nil => simp [split]
  | cons c cs ih =>
    have hc : c ≠ space := fun e => h (by simp [e])
    have hcs : space ∉ cs := fun e => h (List.mem_cons_of_mem _ e)
    have e := ih hcs
    simp only [List.cons_append, split, hc, if_false]
    show (match split (cs ++ space :: rest) with
      | [] => [[c]]
      | w :: ws => (c :: w) :: ws) = (c :: cs) :: split rest
    rw [e]

theorem foldl_initials_length (words : List JSString) (acc : JSString) (h : acc.length ≤ 2) :
    (words.foldl (fun initials word =>
      if initials.length < 2 then initials ++ charAt0 word else initials) acc).length ≤ 2 := by
  induction words generalizing acc with
  | nil => simpa using h
  | cons w ws ih =>
    simp only [List.foldl_cons]
    apply ih
    by_cases hlt : acc.length < 2
    · simp only [hlt, if_true, List.length_append, charAt0, List.length_take]
      omega
    · simpa [hlt] using h

theorem collectInitials_length (words : List JSString) : (collectInitials words).length ≤ 2 :=
  foldl_initials_length words [] (by simp)

/-- C8, counterexample. For the input `"ß ß"` (two words), `getInitials`
returns `"SSSS"`, four characters: the two collected letters are upper-cased
after they are counted, and the upper case of `ß` is `SS`. -/
theorem getInitials_length_counterexample :
    getInitials toUpperCaseLatin1 (utf16 "ß ß") = utf16 "SSSS" ∧
    ¬ (getInitials toUpperCaseLatin1 (utf16 "ß ß")).length ≤ 2 := by
  decide

/-- C8, amended. For every input string `getInitials` returns the upper-casing
of a string of at most two code units, hence at most two characters whenever
upper-casing does not lengthen a string (it can: `"ß ß"` gives `"SSSS"`); when
the input is two words without spaces joined by one space that string is the
first code unit of each word, and when the input is a single word without
spaces it is that word's first code unit. In particular
`getInitials("Max Mustermann") = "MM"`, `getInitials("Max") = "M"` and
`getInitials("") = ""`. -/
theorem getInitials_spec :
    (∀ (toUpperCase : JSString → JSString) (input : JSString),
      (∃ c : JSString, c.length ≤ 2 ∧ getInitials toUpperCase input = toUpperCase c) ∧
      ((∀ c, (toUpperCase c).length ≤ c.length) →
        (getInitials toUpperCase input).length ≤ 2) ∧
      (∀ w1 w2 : JSString, space ∉ w1 → space ∉ w2 → input = w1 ++ [space] ++ w2 →
        getInitials toUpperCase input = toUpperCase (charAt0 w1 ++ charAt0 w2)) ∧
      (space ∉ input → getInitials toUpperCase input = toUpperCase (charAt0 input))) ∧
    getInitials toUpperCaseLatin1 (utf16 "Max Mustermann") = utf16 "MM" ∧
    getInitials toUpperCaseLatin1 (utf16 "Max") = utf16 "M" ∧
    getInitials toUpperCaseLatin1 (utf16 "") = utf16 "" := by
  refine ⟨?_, by decide, by decide, by decide⟩
  intro toUpperCase input
  refine ⟨⟨collectInitials (split input), collectInitials_length _, rfl⟩, ?_, ?_, ?_⟩
  · intro hlen
    exact le_trans (hlen _) (collectInitials_length _)
  · intro w1 w2 h1 h2 hin
    subst hin
    have hs : split (w1 ++ space :: w2) = [w1, w2] := by
      rw [split_append_space _ _ h1, split_of_no_space _ h2]
    have hl : (charAt0 w1).length < 2 := by
      simp only [charAt0, List.length_take]
      omega
    simp [getInitials, hs, collectInitials, hl]
  · intro h
    simp [getInitials, split_of_no_space _ h, collectInitials]

/-! ## Colour assignment -/

theorem lookup_mem_map_snd (table : List (String × String)) (contact color : String)
    (h : table.lookup contact = some color) : color ∈ table.map Prod.snd := by
  induction table with
  | nil => simp at h
  | cons p ps ih =>
    obtain ⟨k, v⟩ := p
    rw [List.lookup_cons] at h
    by_cases hk : (contact == k) = true
    · simp only [hk] at h
      simp only [Option.some.injEq] at h
      simp [h]
    · simp only [hk] at h
      simp only [List.map_cons, List.mem_cons]
      exact Or.inr (ih h)

theorem lookup_of_mem_of_nodup (table : List (String × String)) (p : String × String)
    (hn : (table.map Prod.fst).Nodup) (h : p ∈ table) : table.lookup p.1 = some p.2 := by
  induction table with
  | nil => simp at h
  | cons q qs ih =>
    obtain ⟨k, v⟩ := q
    rw [List.map_cons, List.nodup_cons] at hn
    rw [List.lookup_cons]
    rcases List.mem_cons.mp h with rfl | hmem
    · simp
    · have hne : p.1 ≠ k := by
        intro e
        exact hn.1 (List.mem_map.mpr ⟨p, hmem, e⟩)
      have : (p.1 == k) = false := by simpa using hne
      simp only [this]
      exact ih hn.2 hmem

theorem lookup_eq_none_of_not_mem (table : List (String × String)) (contact : String)
    (h : contact ∉ table.map Prod.fst) : table.lookup contact = none := by
  induction table with
  | nil => rfl
  | cons q qs ih =>
    obtain ⟨k, v⟩ := q
    simp only [List.map_cons, List.mem_cons, not_or] at h
    rw [List.lookup_cons]
    have : (contact == k) = false := by simpa using h.1
    simp only [this]
    exact ih h.2

theorem assignColor_mem (reuse : List (String × String) → String → Nat)
    (table : List (String × String)) (contact : String)
    (h : ∀ c ∈ table.map Prod.snd, c ∈ colorPool) :
    assignColor reuse table contact ∈ colorPool := by
  unfold assignColor
  split
  · next color hl => exact h _ (lookup_mem_map_snd _ _ _ hl)
  · split
    · next color hf => exact List.mem_of_find?_eq_some hf
    · exact List.get_mem _ _ _

theorem assignColor_fresh (reuse : List (String × String) → String → Nat)
    (table : List (String × String)) (contact : String)
    (hnew : contact ∉ table.map Prod.fst) (hlen : table.length < 15) :
    assignColor reuse table contact ∉ table.map Prod.snd := by
  unfold assignColor
  rw [lookup_eq_none_of_not_mem _ _ hnew]
  simp only
  split
  · next color hf =>
    have := List.find?_some hf
    simpa using this
  · next hf =>
    exfalso
    rw [List.find?_eq_none] at hf
    have hsub : colorPool ⊆ table.map Prod.snd := by
      intro c hc
      have := hf c hc
      simpa using this
    have hle := (List.subperm_of_subset (by decide : colorPool.Nodup) hsub).length_le
    have h15 : colorPool.length = 15 := by decide
    rw [List.length_map, h15] at hle
    omega

theorem assignColorsFrom_cons (reuse : List (String × String) → String → Nat)
    (table : List (String × String)) (c : String) (cs : List String) :
    assignColorsFrom reuse table (c :: cs)
      = assignColorsFrom reuse (table ++ [(c, assignColor reuse table c)]) cs := rfl

theorem assignColorsFrom_colors_mem (reuse : List (String × String) → String → Nat)
    (contacts : List String) (table : List (String × String))
    (h : ∀ c ∈ table.map Prod.snd, c ∈ colorPool) :
    ∀ c ∈ (assignColorsFrom reuse table contacts).map Prod.snd, c ∈ colorPool := by
  induction contacts generalizing table with
  | nil => exact h
  | cons x xs ih =>
    rw [assignColorsFrom_cons]
    apply ih
    intro c hc
    simp only [List.map_append, List.map_cons, List.map_nil, List.mem_append,
      List.mem_singleton] at hc
    rcases hc with hc | rfl
    · exact h c hc
    · exact assignColor_mem reuse table x h

theorem assignColorsFrom_keys (reuse : List (String × String) → String → Nat)
    (contacts : List String) (table : List (String × String)) :
    (assignColorsFrom reuse table contacts).map Prod.fst = table.map Prod.fst ++ contacts := by
  induction contacts generalizing table with
  | nil => simp [assignColorsFrom]
  | cons x xs ih =>
    rw [assignColorsFrom_cons, ih]
    simp

theorem assignColorsFrom_nodup (reuse : List (String × String) → String → Nat)
    (contacts : List String) (table : List (String × String))
    (hkeys : (table.map Prod.fst ++ contacts).Nodup)
    (hlen : table.length + contacts.length ≤ 15)
    (hnodup : (table.map Prod.snd).Nodup) :
    ((assignColorsFrom reuse table contacts).map Prod.snd).Nodup := by
  induction contacts generalizing table with
  | nil => exact hnodup
  | cons x xs ih =>
    rw [assignColorsFrom_cons]
    have hx : x ∉ table.map Prod.fst := by
      intro hmem
      exact (List.nodup_append.mp hkeys).2.2 hmem (List.mem_cons_self _ _)
    apply ih
    · simpa using hkeys
    · simp only [List.length_append, List.length_cons, List.length_nil] at hlen ⊢
      omega
    · rw [List.map_append, List.map_cons, List.map_nil]
      refine List.Nodup.append hnodup (List.nodup_singleton _) ?_
      rw [List.disjoint_singleton]
      refine assignColor_fresh reuse table x hx ?_
      simp only [List.length_cons] at hlen
      omega

theorem alreadyGiven_count (l : List String) :
    ((List.range l.length).filter (alreadyGiven l)).length + l.toFinset.card = l.length := by
  induction l using List.reverseRecOn with
  | nil => rfl
  | append_singleton l a ih =>
    have hcongr : (List.range l.length).filter (alreadyGiven (l ++ [a]))
        = (List.range l.length).filter (alreadyGiven l) := by
      apply List.filter_congr
      intro i hi
      have hi1 : i < l.length := List.mem_range.mp hi
      unfold alreadyGiven
      rw [List.get?_eq_getElem?, List.get?_eq_getElem?, List.getElem?_append_left hi1,
        List.take_append_of_le_length (le_of_lt hi1)]
    have hlast : alreadyGiven (l ++ [a]) l.length = l.contains a := by
      unfold alreadyGiven
      rw [List.get?_eq_getElem?, List.getElem?_append_right (le_refl _)]
      simp
    rw [List.length_append, List.length_singleton, List.range_succ, List.filter_append, hcongr,
      List.length_append, List.toFinset_append]
    by_cases ha : a ∈ l
    · have h1 : l.contains a = true := by simpa using ha
      have h2 : l.toFinset ∪ [a].toFinset = l.toFinset := by
        ext x
        simp only [List.toFinset_cons, List.toFinset_nil, insert_emptyc_eq, Finset.mem_union,
          List.mem_toFinset, Finset.mem_singleton]
        constructor
        · rintro (h | rfl)
          · exact h
          · exact ha
        · exact Or.inl
      simp only [List.filter_cons, List.filter_nil, hlast, h1, if_true, List.length_singleton, h2]
      omega
    · have h1 : l.contains a = false := by simpa using ha
      have h2 : (l.toFinset ∪ [a].toFinset).card = l.toFinset.card + 1 := by
        rw [Finset.card_union_of_disjoint]
        · simp
        · simp [ha]
      simp only [List.filter_cons, List.filter_nil, hlast, h1, Bool.false_eq_true, if_false,
        List.length_nil, h2]
      omega

/-- C10. For every reuse policy and every sequence of contacts, the modelled
assignment gives every contact a colour of `colorPool`; for at most 15 distinct
contacts no two contacts receive the same colour; for 20 distinct contacts at
least 5 contacts receive a colour already given to an earlier contact; and
looking a contact up again after the run, as a second run on the same sequence
does, returns the colour the contact already has. -/
theorem assignColors_spec (reuse : List (String × String) → String → Nat)
    (contacts : List String) :
    (assignColors reuse contacts).map Prod.fst = contacts ∧
    (∀ p ∈ assignColors reuse contacts, p.2 ∈ colorPool) ∧
    (contacts.Nodup → contacts.length ≤ 15 →
      ((assignColors reuse contacts).map Prod.snd).Nodup) ∧
    (contacts.Nodup → contacts.length = 20 →
      5 ≤ ((List.range 20).filter
        (alreadyGiven ((assignColors reuse contacts).map Prod.snd))).length) ∧
    (contacts.Nodup → ∀ p ∈ assignColors reuse contacts,
      assignColor reuse (assignColors reuse contacts) p.1 = p.2) := by
  have hkeys : (assignColors reuse contacts).map Prod.fst = contacts := by
    have := assignColorsFrom_keys reuse contacts []
    simpa [assignColors] using this
  have hmem : ∀ c ∈ (assignColors reuse contacts).map Prod.snd, c ∈ colorPool :=
    assignColorsFrom_colors_mem reuse contacts [] (by simp)
  refine ⟨hkeys, ?_, ?_, ?_, ?_⟩
  · intro p hp
    exact hmem p.2 (List.mem_map_of_mem Prod.snd hp)
  · intro hn hlen
    exact assignColorsFrom_nodup reuse contacts [] (by simpa using hn) (by simpa using hlen)
      (by simp)
  · intro _ hlen
    have hl : ((assignColors reuse contacts).map Prod.snd).length = 20 := by
      rw [List.length_map, ← List.length_map (assignColors reuse contacts) Prod.fst, hkeys, hlen]
    have hcount := alreadyGiven_count ((assignColors reuse contacts).map Prod.snd)
    rw [hl] at hcount
    have hsub : ((assignColors reuse contacts).map Prod.snd).toFinset ⊆ colorPool.toFinset := by
      intro c hc
      rw [List.mem_toFinset] at hc ⊢
      exact hmem c hc
    have hcard := Finset.card_le_card hsub
    have hpool : colorPool.toFinset.card ≤ 15 := List.toFinset_card_le colorPool
    omega
  · intro hn p hp
    have hl := lookup_of_mem_of_nodup (assignColors reuse contacts) p (by rw [hkeys]; exact hn) hp
    unfold assignColor
    rw [hl]

end Join
